import Mathlib

/-!
Shallow embedding of the OpenNOW DXVA HEVC decoder core
(opennow-streamer/src/media/dxva_decoder.rs) together with the
failure-recovery counters of the video decode paths
(media/native_video.rs, media/video.rs), and proofs of the spec claims
about them.

Machine-integer conventions: Rust u8/u32/u64/usize values are modelled
as Nat, i32 values as Int.  Casts that truncate (for example
`surface_idx as u8`) are modelled with an explicit `% 256`.  The small
arithmetic in these functions stays far away from u32/u64/i32 overflow
in every scenario the claims mention, so wrap-around of the wide types
is not modelled.  Rust integer division on nonnegative operands agrees
with Int.tdiv (truncation toward zero), which is used where the source
divides.
-/

namespace OpenNOW

/-- DpbEntry mirrors the Rust struct of the same name: one reference
picture tracked by the decoder.  surface_index is a u8, poc an i32,
frame_num a u64. -/
structure DpbEntry where
  surface_index : Nat
  poc : Int
  is_reference : Bool
  is_long_term : Bool
  frame_num : Nat
  deriving DecidableEq, Repr

/-- DxvaState carries exactly the DxvaDecoder fields that the DPB/POC
claims touch: the DPB vector, its bound, the round-robin surface
cursor, the configured surface count, the frame counter, and the POC
history. -/
structure DxvaState where
  dpb : List DpbEntry
  dpb_max_size : Nat
  current_surface : Nat
  surface_count : Nat
  frame_count : Nat
  prev_poc_lsb : Int
  prev_poc_msb : Int
  deriving DecidableEq, Repr

/-- calculate_full_poc, translated from dxva_decoder.rs: derives the
full POC from the POC LSB per ITU-T H.265 section 8.3.1 and updates the
prev_poc_lsb/prev_poc_msb history.  Returns the full POC together with
the updated state. -/
def calculate_full_poc (s : DxvaState) (poc_lsb : Int) (is_idr : Bool)
    (max_poc_lsb : Int) : Int × DxvaState :=
  if is_idr then
    (0, { s with prev_poc_lsb := 0, prev_poc_msb := 0 })
  else
    let half_max_poc_lsb := max_poc_lsb.tdiv 2
    let poc_msb :=
      if poc_lsb < s.prev_poc_lsb ∧ half_max_poc_lsb ≤ s.prev_poc_lsb - poc_lsb then
        s.prev_poc_msb + max_poc_lsb
      else if s.prev_poc_lsb < poc_lsb ∧ half_max_poc_lsb < poc_lsb - s.prev_poc_lsb then
        s.prev_poc_msb - max_poc_lsb
      else
        s.prev_poc_msb
    (poc_msb + poc_lsb, { s with prev_poc_lsb := poc_lsb, prev_poc_msb := poc_msb })

/-- Iterates calculate_full_poc over a list of (poc_lsb, is_idr) inputs
with a fixed max_poc_lsb, collecting the returned full POC values. -/
def runPoc (s : DxvaState) (max_poc_lsb : Int) : List (Int × Bool) → List Int
  | [] => []
  | (lsb, idr) :: rest =>
    let r := calculate_full_poc s lsb idr max_poc_lsb
    r.1 :: runPoc r.2 max_poc_lsb rest

/-- Fresh decoder state as DxvaDecoder::new builds it: empty DPB,
dpb_max_size fixed at 18, cursor 0, frame and POC history zeroed. -/
def freshState (surface_count : Nat) : DxvaState :=
  { dpb := []
    dpb_max_size := 18
    current_surface := 0
    surface_count := surface_count
    frame_count := 0
    prev_poc_lsb := 0
    prev_poc_msb := 0 }

/-- Index scan used inside update_dpb, mirroring the Rust iterator
chain enumerate().min_by_key(frame_num): walks the tail keeping the
index of the first entry with the least frame_num seen so far. -/
def minFrameNumGo : List DpbEntry → Nat → Nat → Nat → Nat
  | [], _, bestIdx, _ => bestIdx
  | e :: rest, best, bestIdx, cur =>
    if e.frame_num < best then minFrameNumGo rest e.frame_num cur (cur + 1)
    else minFrameNumGo rest best bestIdx (cur + 1)

/-- Index of the entry with the smallest frame_num, first such entry on
ties, as Rust min_by_key behaves; none on an empty DPB. -/
def idxOfMinFrameNum : List DpbEntry → Option Nat
  | [] => none
  | e :: rest => some (minFrameNumGo rest e.frame_num 0 1)

/-- The eviction while-loop of update_dpb: while the DPB size is at
least dpb_max_size, remove the entry with the smallest frame_num.  The
fuel argument (called with the list length) bounds the recursion; each
executed iteration removes one entry, so fuel equal to the length is
never exhausted when dpb_max_size is positive.  (With dpb_max_size = 0
the Rust loop never terminates once the DPB is empty; the decoder
constructor fixes dpb_max_size = 18, and every claim about update_dpb
assumes a positive bound.) -/
def evictLoop : Nat → List DpbEntry → Nat → List DpbEntry
  | 0, dpb, _ => dpb
  | fuel + 1, dpb, maxSize =>
    if maxSize ≤ dpb.length then
      match idxOfMinFrameNum dpb with
      | some i => evictLoop fuel (dpb.eraseIdx i) maxSize
      | none => dpb
    else dpb

/-- update_dpb, translated from dxva_decoder.rs: bump the frame
counter; on IDR clear the DPB and the POC history; drop any entry
reusing the new surface; evict smallest-frame_num entries while the DPB
is at capacity; append the new entry when it is a reference frame. -/
def update_dpb (s : DxvaState) (surface_idx : Nat) (poc : Int)
    ( is_reference is_idr : Bool) : DxvaState :=
  let s := { s with frame_count := s.frame_count + 1 }
  let s :=
    if is_idr then { s with dpb := [], prev_poc_lsb := 0, prev_poc_msb := 0 }
    else s
  let dpb := s.dpb.filter (fun e => e.surface_index != surface_idx % 256)
  let dpb := evictLoop dpb.length dpb s.dpb_max_size
  let dpb :=
    if is_reference then
      dpb ++ [({ surface_index := surface_idx % 256
                 poc := poc
                 is_reference := true
                 is_long_term := false
                 frame_num := s.frame_count } : DpbEntry)]
    else dpb
  { s with dpb := dpb }

/-- clear_dpb, translated from dxva_decoder.rs: empty the DPB and reset
the POC history and the frame counter. -/
def clear_dpb (s : DxvaState) : DxvaState :=
  { s with dpb := [], prev_poc_lsb := 0, prev_poc_msb := 0, frame_count := 0 }

/-- The POC-MSB value that claim C1 predicts, written from the claim
text: wrap upward when the LSB dropped by at least half the range, wrap
downward when it rose by more than half the range, otherwise keep the
previous MSB. -/
def claimPocMsb (prev_lsb prev_msb poc_lsb max_poc_lsb : Int) : Int :=
  if poc_lsb < prev_lsb ∧ max_poc_lsb.tdiv 2 ≤ prev_lsb - poc_lsb then
    prev_msb + max_poc_lsb
  else if prev_lsb < poc_lsb ∧ max_poc_lsb.tdiv 2 < poc_lsb - prev_lsb then
    prev_msb - max_poc_lsb
  else
    prev_msb

/-- LSB input sequence of the C1 example: 0 flagged IDR, then
4, 8, ..., 252, then 0 and 4 after the wrap, all non-IDR. -/
def c1Inputs : List (Int × Bool) :=
  ((0 : Int), true) :: (List.range 63).map (fun i => (4 * ((i : Int) + 1), false))
    ++ [((0 : Int), false), ((4 : Int), false)]

/-- Unwrapped POC sequence the C1 example expects: 0, 4, ..., 260. -/
def c1Expected : List Int :=
  (List.range 66).map (fun i => 4 * (i : Int))

/-- Test used by get_next_surface for one candidate: some DPB entry
holds this surface, compared through the u8 cast of the source. -/
def inDpb (dpb : List DpbEntry) (candidate : Nat) : Bool :=
  dpb.any (fun e => e.surface_index == candidate % 256)

/-- The candidate scan of get_next_surface: up to the remaining fuel
(started at surface_count), read the cursor, advance it modulo
surface_count, and stop at the first candidate not held by the DPB.
Returns the found candidate (if any) with the state whose cursor
advanced. -/
def scanLoop : Nat → DxvaState → Option Nat × DxvaState
  | 0, s => (none, s)
  | k + 1, s =>
    let candidate := s.current_surface
    let s' := { s with current_surface := (s.current_surface + 1) % s.surface_count }
    if inDpb s'.dpb candidate then scanLoop k s' else (some candidate, s')

/-- get_next_surface, translated from dxva_decoder.rs: scan for a
surface not referenced by the DPB; if every candidate is referenced,
evict the first DPB entry and reuse its surface; as a last resort reuse
the cursor surface.  The last resort executes a remainder by
surface_count, which panics in Rust when surface_count is zero; that
panic is modelled as none. -/
def get_next_surface (s : DxvaState) : Option (Nat × DxvaState) :=
  match scanLoop s.surface_count s with
  | (some c, s') => some (c, s')
  | (none, s') =>
    match s'.dpb with
    | oldest :: rest => some (oldest.surface_index, { s' with dpb := rest })
    | [] =>
      if s'.surface_count = 0 then none
      else
        some (s'.current_surface,
          { s' with current_surface := (s'.current_surface + 1) % s'.surface_count })

/-- The list of candidate surface indices that the scan of
get_next_surface visits: the cursor value, then repeatedly advanced by
one modulo n, for k steps. -/
def candList : Nat → Nat → Nat → List Nat
  | 0, _, _ => []
  | k + 1, cur, n => cur :: candList k ((cur + 1) % n) n

/-- The C4 claim about one get_next_surface call, phrased over the
model: when some visited candidate is free, the call returns the first
free candidate, leaves the DPB unchanged, and the returned index is not
in the live DPB; when every visited candidate is referenced, the call
removes the first DPB entry (vector index 0, insertion order) and
returns that entry's surface index. -/
def C4Prop (s : DxvaState) : Prop :=
  (∀ c, (candList s.surface_count s.current_surface s.surface_count).find?
        (fun x => ! inDpb s.dpb x) = some c →
      ∃ s', get_next_surface s = some (c, s') ∧ s'.dpb = s.dpb ∧ inDpb s.dpb c = false) ∧
  ((candList s.surface_count s.current_surface s.surface_count).find?
        (fun x => ! inDpb s.dpb x) = none →
      ∃ e rest, s.dpb = e :: rest ∧
        ∃ s', get_next_surface s = some (e.surface_index, s') ∧ s'.dpb = rest)

/-- State C6 is refuted on: an empty DPB with surface_count configured
to 0.  The scan runs zero iterations, the DPB offers nothing to evict,
and the last resort computes (current_surface + 1) % 0, which panics in
Rust. -/
def c6CounterState : DxvaState :=
  { dpb := []
    dpb_max_size := 18
    current_surface := 0
    surface_count := 0
    frame_count := 0
    prev_poc_lsb := 0
    prev_poc_msb := 0 }

/-- Operations that mutate the DPB-related decoder state, for stating
reachability: an update_dpb call, a get_next_surface call, or a
clear_dpb call. -/
inductive Op where
  | update (surface_idx : Nat) (poc : Int) ( is_reference is_idr : Bool)
  | acquire
  | clear

/-- One decoder operation applied to a state.  A get_next_surface call
keeps its returned state; the impossible-in-practice failing case
(surface_count = 0 with an empty DPB, a Rust panic) leaves the state
unchanged. -/
def step (s : DxvaState) : Op → DxvaState
  | Op.update a p r i => update_dpb s a p r i
  | Op.acquire =>
    match get_next_surface s with
    | some (_, s') => s'
    | none => s
  | Op.clear => clear_dpb s

/-- States reachable from a fresh decoder by any sequence of update,
acquire and clear operations. -/
inductive Reachable : DxvaState → Prop where
  | fresh (n : Nat) : Reachable (freshState n)
  | step (s : DxvaState) (op : Op) : Reachable s → Reachable (step s op)

/-- Invariant behind C10: frame_num values in the DPB are strictly
increasing in vector (insertion) order and never exceed the frame
counter. -/
def DpbOrdered (s : DxvaState) : Prop :=
  s.dpb.Pairwise (fun a b => a.frame_num < b.frame_num) ∧
  ∀ e ∈ s.dpb, e.frame_num ≤ s.frame_count

/-- DxvaHevcSliceShort mirrors the Rust slice-control struct: position
of the slice in the bitstream buffer, its byte count, and the chopping
indicator. -/
structure DxvaHevcSliceShort where
  bs_nal_unit_data_location : Nat
  slice_bytes_in_buffer : Nat
  w_bad_slice_chopping : Nat
  deriving DecidableEq, Repr

/-- The per-NAL loop of build_annex_b_bitstream_and_slices: append an
optional 3-byte start code plus the NAL payload to the bitstream and
record one slice control holding the start position and the slice
size. -/
def buildLoop (start_code_len : Nat) (use_start_codes : Bool) :
    List (List Nat) → List Nat → List DxvaHevcSliceShort →
      List Nat × List DxvaHevcSliceShort
  | [], bitstream, slice_controls => (bitstream, slice_controls)
  | nal :: rest, bitstream, slice_controls =>
    let position := bitstream.length
    let bitstream' := bitstream ++ (if use_start_codes then [0, 0, 1] else []) ++ nal
    buildLoop start_code_len use_start_codes rest bitstream'
      (slice_controls ++
        [{ bs_nal_unit_data_location := position
           slice_bytes_in_buffer := start_code_len + nal.length
           w_bad_slice_chopping := 0 }])

/-- Folds the padding bytes into the final slice control, as the
last_mut update of the source does; no slice, no update. -/
def addPadToLast : List DxvaHevcSliceShort → Nat → List DxvaHevcSliceShort
  | [], _ => []
  | [c], p => [{ c with slice_bytes_in_buffer := c.slice_bytes_in_buffer + p }]
  | c :: c2 :: rest, p => c :: addPadToLast (c2 :: rest) p

/-- build_annex_b_bitstream_and_slices, translated from
dxva_decoder.rs: NAL payloads as byte lists, a 3-byte start code per
slice exactly when config_bitstream_raw = 1, the buffer zero-padded up
to the next 128-byte boundary, and the padding added to the final
slice's byte count.  The Rust alignment (total + 127) BITAND NOT 127 on
usize equals (total + 127) / 128 * 128 at every size a buffer can
reach. -/
def build_annex_b_bitstream_and_slices (slice_nals : List (List Nat))
    (config_bitstream_raw : Nat) : List Nat × List DxvaHevcSliceShort :=
  let use_start_codes := config_bitstream_raw == 1
  let start_code_len := if use_start_codes then 3 else 0
  let total_size := (slice_nals.map (fun nal => start_code_len + nal.length)).sum
  let padded_size := (total_size + 127) / 128 * 128
  let r := buildLoop start_code_len use_start_codes slice_nals [] []
  (r.1 ++ List.replicate (padded_size - r.1.length) 0,
    addPadToLast r.2 (padded_size - total_size))

/-- DxvaPicEntryHevc::new from dxva_decoder.rs: the packed b_pic_entry
byte, low 7 bits the surface index, bit 7 the long-term flag.  The
invalid sentinel is 0xFF. -/
def picEntryNew (index : Nat) (is_long_term : Bool) : Nat :=
  (index &&& 0x7F) ||| (if is_long_term then 0x80 else 0)

/-- The reference-list slice of the DXVA_PicParams_HEVC structure that
build_hevc_pic_params fills: the 15-entry packed reference list, the
matching POC values, and the three 8-byte reference picture sets. -/
structure HevcRefLists where
  ref_pic_list : List Nat
  pic_order_cnt_val_list : List Int
  ref_pic_set_st_curr_before : List Nat
  ref_pic_set_st_curr_after : List Nat
  ref_pic_set_lt_curr : List Nat
  deriving DecidableEq, Repr

/-- Stable insertion into a descending-by-POC list: the new (earlier)
element goes before the first element whose POC does not exceed it, so
equal POCs keep their original order, as Rust's stable sort_by with a
descending comparator does. -/
def insertPocDesc (e : DpbEntry) : List DpbEntry → List DpbEntry
  | [] => [e]
  | x :: xs => if x.poc ≤ e.poc then e :: x :: xs else x :: insertPocDesc e xs

/-- Stable insertion into an ascending-by-POC list, matching Rust's
stable sort_by with an ascending comparator. -/
def insertPocAsc (e : DpbEntry) : List DpbEntry → List DpbEntry
  | [] => [e]
  | x :: xs => if e.poc ≤ x.poc then e :: x :: xs else x :: insertPocAsc e xs

/-- Stable descending sort by POC (insertion sort; stable sorting is
uniquely determined, so this reproduces Rust's stable sort_by output
exactly). -/
def sortPocDesc (l : List DpbEntry) : List DpbEntry :=
  l.foldr insertPocDesc []

/-- Stable ascending sort by POC. -/
def sortPocAsc (l : List DpbEntry) : List DpbEntry :=
  l.foldr insertPocAsc []

/-- The two short-term reference loops of build_hevc_pic_params: for
each entry, stop once the shared list index reaches 15; otherwise write
the packed entry and its POC at the list index, record the list index
into the short-term set while fewer than 8 slots are used, and advance.
Returns the final list index, set slot count, and the three updated
vectors. -/
def fillStRefs : List DpbEntry → Nat → Nat → List Nat → List Int → List Nat →
    Nat × Nat × List Nat × List Int × List Nat
  | [], ref_idx, st_idx, rl, pocl, stset => (ref_idx, st_idx, rl, pocl, stset)
  | e :: rest, ref_idx, st_idx, rl, pocl, stset =>
    if 15 ≤ ref_idx then (ref_idx, st_idx, rl, pocl, stset)
    else
      if st_idx < 8 then
        fillStRefs rest (ref_idx + 1) (st_idx + 1)
          (rl.set ref_idx (picEntryNew e.surface_index false))
          (pocl.set ref_idx e.poc)
          (stset.set st_idx (ref_idx % 256))
      else
        fillStRefs rest (ref_idx + 1) st_idx
          (rl.set ref_idx (picEntryNew e.surface_index false))
          (pocl.set ref_idx e.poc)
          stset

/-- The long-term loop of build_hevc_pic_params: walks the whole DPB in
insertion order, stops once the list index reaches 15, appends entries
flagged is_reference and is_long_term with the long-term bit set, and
advances the index — without recording anything into
ref_pic_set_lt_curr (the source comment announces that recording but no
assignment follows it). -/
def fillLtRefs : List DpbEntry → Nat → List Nat → List Int → List Nat × List Int
  | [], _, rl, pocl => (rl, pocl)
  | e :: rest, ref_idx, rl, pocl =>
    if 15 ≤ ref_idx then (rl, pocl)
    else if e.is_reference && e.is_long_term then
      fillLtRefs rest (ref_idx + 1)
        (rl.set ref_idx (picEntryNew e.surface_index true))
        (pocl.set ref_idx e.poc)
    else
      fillLtRefs rest ref_idx rl pocl

/-- The reference-picture-list portion of build_hevc_pic_params,
translated from dxva_decoder.rs lines 1315-1397: initialize the list to
the 0xFF sentinel and the three sets to 0xFF; for a non-IDR frame with
a non-empty DPB, append the short-term entries with POC below the
current POC in descending POC order, then those above it in ascending
order, then the long-term entries, recording list positions into the
st_curr_before and st_curr_after sets. -/
def buildRefLists (dpb : List DpbEntry) (current_poc : Int) (is_idr : Bool) :
    HevcRefLists :=
  let rl0 := List.replicate 15 (0xFF : Nat)
  let pocl0 := List.replicate 15 (0 : Int)
  let st0 := List.replicate 8 (0xFF : Nat)
  if !is_idr && !dpb.isEmpty then
    let refs_before := sortPocDesc (dpb.filter
      (fun e => e.is_reference && !e.is_long_term && decide (e.poc < current_poc)))
    let refs_after := sortPocAsc (dpb.filter
      (fun e => e.is_reference && !e.is_long_term && decide (current_poc < e.poc)))
    match fillStRefs refs_before 0 0 rl0 pocl0 st0 with
    | (ri1, _, rl1, pocl1, set_before) =>
      match fillStRefs refs_after ri1 0 rl1 pocl1 st0 with
      | (ri2, _, rl2, pocl2, set_after) =>
        match fillLtRefs dpb ri2 rl2 pocl2 with
        | (rl3, pocl3) =>
          { ref_pic_list := rl3
            pic_order_cnt_val_list := pocl3
            ref_pic_set_st_curr_before := set_before
            ref_pic_set_st_curr_after := set_after
            ref_pic_set_lt_curr := st0 }
  else
    { ref_pic_list := rl0
      pic_order_cnt_val_list := pocl0
      ref_pic_set_st_curr_before := st0
      ref_pic_set_st_curr_after := st0
      ref_pic_set_lt_curr := st0 }

/-- The failing input for C2: a DPB holding one long-term reference
entry at surface 1 with POC 10, decoded against current POC 25,
non-IDR. -/
def c2FailDpb : List DpbEntry :=
  [{ surface_index := 1, poc := 10, is_reference := true,
     is_long_term := true, frame_num := 1 }]

/-- The example DPB of C2: short-term references at POCs 10, 20 and 30
on surfaces 0, 1 and 2. -/
def c2ExampleDpb : List DpbEntry :=
  [{ surface_index := 0, poc := 10, is_reference := true,
     is_long_term := false, frame_num := 1 },
   { surface_index := 1, poc := 20, is_reference := true,
     is_long_term := false, frame_num := 2 },
   { surface_index := 2, poc := 30, is_reference := true,
     is_long_term := false, frame_num := 3 }]

/-- Outcome of one GStreamer decode call as decode_async in video.rs
distinguishes them: a frame was produced, no frame was produced
(buffering), or the decode returned an error. -/
inductive GstOutcome where
  | frame
  | noFrame
  | error
  deriving DecidableEq, Repr

/-- One step of decode_async from video.rs: a frame resets the
consecutive-failure counter and reports no keyframe need; no frame
increments it and reports a keyframe need exactly at the threshold (3)
or past it at multiples of 20; an error increments it and reports a
keyframe need at every count at or past the threshold.  Returns the new
counter and the reported needs_keyframe flag. -/
def decodeAsyncStep (c : Nat) : GstOutcome → Nat × Bool
  | GstOutcome.frame => (0, false)
  | GstOutcome.noFrame =>
    (c + 1, (c + 1 == 3) || (decide (3 < c + 1) && ((c + 1) % 20 == 0)))
  | GstOutcome.error => (c + 1, decide (3 ≤ c + 1))

/-- One iteration of the native decoder thread from native_video.rs:
success resets the consecutive-failure counter and reports no keyframe
need; failure increments it and reports a keyframe need at every count
at or past the threshold (3). -/
def nativeStep (c : Nat) (ok : Bool) : Nat × Bool :=
  if ok then (0, false) else (c + 1, decide (3 ≤ c + 1))

/-- Runs a per-call counter update over a history of outcomes,
collecting the reported needs_keyframe flags. -/
def runFlags {α : Type} (stepf : Nat → α → Nat × Bool) : Nat → List α → List Bool
  | _, [] => []
  | c, o :: rest => (stepf c o).2 :: runFlags stepf (stepf c o).1 rest

/-- The consecutive-failure counter shared by both decode paths over a
history of success flags: success resets it to zero, failure adds
one. -/
def counterRun : Nat → List Bool → Nat
  | c, [] => c
  | c, ok :: rest => counterRun (if ok then 0 else c + 1) rest

/-- The needs_keyframe schedule the C5 claim asserts for the k-th
consecutive failure: once at the threshold crossing (k = 3), then only
at every 20 further consecutive failures during prolonged failure
(read, as the source's re-trigger does, as counts that are multiples of
20). -/
def claimedFlagAt (k : Nat) : Bool :=
  (k == 3) || (decide (3 < k) && (k % 20 == 0))

/-- The flag sequence the C5 claim predicts for n consecutive
failures. -/
def claimedFlags (n : Nat) : List Bool :=
  (List.range n).map (fun i => claimedFlagAt (i + 1))

/-- C1: calculate_full_poc with is_idr=false returns poc_msb + poc_lsb
with poc_msb chosen by the half-range wrap rule of H.265 section 8.3.1
and records poc_lsb/poc_msb as the new history; with is_idr=true it
returns 0 and zeroes the history.  Iterated on the example LSB sequence
[0(IDR), 4, 8, ..., 252, 0, 4] with max_poc_lsb = 256 it yields the
unwrapped sequence [0, 4, ..., 252, 256, 260]. -/
theorem c1_calculate_full_poc_spec :
    (∀ (s : DxvaState) (poc_lsb max_poc_lsb : Int),
      calculate_full_poc s poc_lsb true max_poc_lsb =
        (0, { s with prev_poc_lsb := 0, prev_poc_msb := 0 }) ∧
      calculate_full_poc s poc_lsb false max_poc_lsb =
        (claimPocMsb s.prev_poc_lsb s.prev_poc_msb poc_lsb max_poc_lsb + poc_lsb,
         { s with
            prev_poc_lsb := poc_lsb
            prev_poc_msb := claimPocMsb s.prev_poc_lsb s.prev_poc_msb poc_lsb max_poc_lsb })) ∧
    runPoc (freshState 25) 256 c1Inputs = c1Expected := by
  constructor
  · intro s poc_lsb max_poc_lsb
    constructor
    · rfl
    · simp only [calculate_full_poc, claimPocMsb]
      rfl
  · decide

/-- The scan of minFrameNumGo only answers the running best index or an
index of an element it walked past, so it stays below cur plus the
number of remaining elements. -/
theorem minFrameNumGo_lt (l : List DpbEntry) :
    ∀ best bestIdx cur, bestIdx < cur → minFrameNumGo l best bestIdx cur < cur + l.length := by
  induction l with
  | nil => intro best bestIdx cur h; simpa [minFrameNumGo] using h
  | cons e rest ih =>
    intro best bestIdx cur h
    simp only [minFrameNumGo, List.length_cons]
    by_cases he : e.frame_num < best
    · simp only [he, if_true]
      have := ih e.frame_num cur (cur + 1) (Nat.lt_succ_self cur)
      omega
    · simp only [he, if_false]
      have := ih best bestIdx (cur + 1) (Nat.lt_succ_of_lt h)
      omega

/-- idxOfMinFrameNum returns an in-bounds index. -/
theorem idxOfMinFrameNum_lt {dpb : List DpbEntry} {i : Nat}
    (h : idxOfMinFrameNum dpb = some i) : i < dpb.length := by
  cases dpb with
  | nil => simp [idxOfMinFrameNum] at h
  | cons e rest =>
    simp only [idxOfMinFrameNum, Option.some.injEq] at h
    have := minFrameNumGo_lt rest e.frame_num 0 1 (Nat.zero_lt_one)
    simp only [List.length_cons]
    omega

/-- Eviction terminates below the bound: with a positive dpb_max_size
and fuel at least the list length, the loop returns a DPB strictly
shorter than the bound. -/
theorem evictLoop_length_lt (fuel : Nat) :
    ∀ (dpb : List DpbEntry) (maxSize : Nat), 0 < maxSize → dpb.length ≤ fuel →
      (evictLoop fuel dpb maxSize).length < maxSize := by
  induction fuel with
  | zero =>
    intro dpb maxSize hpos hlen
    have : dpb.length = 0 := Nat.le_zero.mp hlen
    simpa [evictLoop, this] using hpos
  | succ n ih =>
    intro dpb maxSize hpos hlen
    simp only [evictLoop]
    by_cases hfull : maxSize ≤ dpb.length
    · simp only [hfull, if_true]
      cases hdpb : dpb with
      | nil => simp [hdpb] at hfull; omega
      | cons e rest =>
        have hne : idxOfMinFrameNum dpb = some (minFrameNumGo rest e.frame_num 0 1) := by
          rw [hdpb]; rfl
        rw [← hdpb, hne]
        have hi : minFrameNumGo rest e.frame_num 0 1 < dpb.length := idxOfMinFrameNum_lt hne
        have herase : (dpb.eraseIdx (minFrameNumGo rest e.frame_num 0 1)).length
            = dpb.length - 1 := List.length_eraseIdx_of_lt hi
        apply ih
        · exact hpos
        · omega
    · simp only [hfull, if_false]
      omega

/-- Every result of the eviction loop is a sublist of its input. -/
theorem evictLoop_sublist (fuel : Nat) :
    ∀ (dpb : List DpbEntry) (maxSize : Nat), List.Sublist (evictLoop fuel dpb maxSize) dpb := by
  induction fuel with
  | zero => intro dpb maxSize; simp [evictLoop]
  | succ n ih =>
    intro dpb maxSize
    simp only [evictLoop]
    by_cases hfull : maxSize ≤ dpb.length
    · simp only [hfull, if_true]
      cases h : idxOfMinFrameNum dpb with
      | none => exact List.Sublist.refl dpb
      | some i =>
        exact List.Sublist.trans (ih (dpb.eraseIdx i) maxSize) (List.eraseIdx_sublist dpb i)
    · simp only [hfull, if_false]
      exact List.Sublist.refl dpb

/-- C3: one update_dpb call from any state with a positive DPB bound
leaves at most dpb_max_size entries, and leaves the bound itself
unchanged, so along any call sequence from a reachable state (where the
bound is the constructor constant 18) the bound invariant holds after
every call. -/
theorem c3_update_dpb_bounded (s : DxvaState) (surface_idx : Nat) (poc : Int)
    ( is_reference is_idr : Bool) (hpos : 0 < s.dpb_max_size) :
    (update_dpb s surface_idx poc is_reference is_idr).dpb.length ≤ s.dpb_max_size ∧
    (update_dpb s surface_idx poc is_reference is_idr).dpb_max_size = s.dpb_max_size := by
  have hev : ∀ l : List DpbEntry,
      (evictLoop ((List.filter (fun e => e.surface_index != surface_idx % 256) l).length)
        (List.filter (fun e => e.surface_index != surface_idx % 256) l)
        s.dpb_max_size).length < s.dpb_max_size :=
    fun l => evictLoop_length_lt _ _ _ hpos (Nat.le_refl _)
  unfold update_dpb
  cases is_idr with
  | true =>
    cases is_reference with
    | true =>
      refine ⟨?_, rfl⟩
      have h := hev []
      simp only [if_true, List.length_append, List.length_cons, List.length_nil]
      omega
    | false =>
      refine ⟨?_, rfl⟩
      have h := hev []
      simp only [if_true, Bool.false_eq_true, if_false]
      omega
  | false =>
    cases is_reference with
    | true =>
      refine ⟨?_, rfl⟩
      have h := hev s.dpb
      simp only [Bool.false_eq_true, if_false, if_true, List.length_append,
        List.length_cons, List.length_nil]
      omega
    | false =>
      refine ⟨?_, rfl⟩
      have h := hev s.dpb
      simp only [Bool.false_eq_true, if_false]
      omega

/-- Witness for C3 at a concrete overfull state: bound 1, two entries,
a reference non-IDR update still lands at or below the bound. -/
theorem c3_witness :
    0 < (1 : Nat) ∧
    (update_dpb
      { dpb := [{ surface_index := 0, poc := 0, is_reference := true,
                  is_long_term := false, frame_num := 1 },
                { surface_index := 1, poc := 5, is_reference := true,
                  is_long_term := false, frame_num := 2 }]
        dpb_max_size := 1
        current_surface := 0
        surface_count := 25
        frame_count := 2
        prev_poc_lsb := 0
        prev_poc_msb := 0 } 3 7 true false).dpb.length ≤ 1 :=
  ⟨Nat.zero_lt_one,
    (c3_update_dpb_bounded _ 3 7 true false Nat.zero_lt_one).1⟩

/-- C7: an IDR update_dpb call from any state with a positive DPB bound
leaves exactly the current frame in the DPB when it is a reference (and
nothing otherwise) and zeroes the POC history, whatever the prior DPB
held. -/
theorem c7_update_dpb_idr (s : DxvaState) (surface_idx : Nat) (poc : Int)
    ( is_reference : Bool) (_hpos : 0 < s.dpb_max_size) :
    (update_dpb s surface_idx poc is_reference true).dpb =
      (if is_reference then
        [({ surface_index := surface_idx % 256, poc := poc, is_reference := true,
            is_long_term := false, frame_num := s.frame_count + 1 } : DpbEntry)]
       else []) ∧
    (update_dpb s surface_idx poc is_reference true).dpb.length ≤ 1 ∧
    (update_dpb s surface_idx poc is_reference true).prev_poc_lsb = 0 ∧
    (update_dpb s surface_idx poc is_reference true).prev_poc_msb = 0 := by
  unfold update_dpb
  cases is_reference <;> simp [evictLoop]

/-- Witness for C7: an IDR reference update on a populated DPB leaves
only the new frame and a zeroed POC history. -/
theorem c7_witness :
    0 < (18 : Nat) ∧
    ((update_dpb
      { dpb := [{ surface_index := 4, poc := 40, is_reference := true,
                  is_long_term := false, frame_num := 7 }]
        dpb_max_size := 18
        current_surface := 5
        surface_count := 25
        frame_count := 7
        prev_poc_lsb := 40
        prev_poc_msb := 256 } 2 0 true true).dpb =
        [({ surface_index := 2, poc := 0, is_reference := true,
            is_long_term := false, frame_num := 8 } : DpbEntry)] ∧
      (update_dpb
      { dpb := [{ surface_index := 4, poc := 40, is_reference := true,
                  is_long_term := false, frame_num := 7 }]
        dpb_max_size := 18
        current_surface := 5
        surface_count := 25
        frame_count := 7
        prev_poc_lsb := 40
        prev_poc_msb := 256 } 2 0 true true).prev_poc_lsb = 0) :=
  ⟨by decide,
    by
      have h := c7_update_dpb_idr
        { dpb := [{ surface_index := 4, poc := 40, is_reference := true,
                    is_long_term := false, frame_num := 7 }]
          dpb_max_size := 18
          current_surface := 5
          surface_count := 25
          frame_count := 7
          prev_poc_lsb := 40
          prev_poc_msb := 256 } 2 0 true (by decide)
      exact ⟨by simpa using h.1, h.2.2.1⟩⟩

/-- The scan only advances the cursor: its final state is the input
state with some cursor value. -/
theorem scanLoop_state (k : Nat) :
    ∀ s : DxvaState, ∃ c, (scanLoop k s).2 = { s with current_surface := c } := by
  induction k with
  | zero => intro s; exact ⟨s.current_surface, rfl⟩
  | succ n ih =>
    intro s
    simp only [scanLoop]
    by_cases h : inDpb s.dpb s.current_surface
    · simp only [h, if_true]
      obtain ⟨c, hc⟩ := ih { s with current_surface := (s.current_surface + 1) % s.surface_count }
      exact ⟨c, hc⟩
    · exact ⟨(s.current_surface + 1) % s.surface_count, by simp [h]⟩

/-- The candidate the scan reports is the first element of the visited
candidate list that the DPB does not hold. -/
theorem scanLoop_fst (k : Nat) :
    ∀ s : DxvaState,
      (scanLoop k s).1 =
        (candList k s.current_surface s.surface_count).find? (fun x => ! inDpb s.dpb x) := by
  induction k with
  | zero => intro s; rfl
  | succ n ih =>
    intro s
    simp only [scanLoop, candList]
    by_cases h : inDpb s.dpb s.current_surface
    · rw [List.find?_cons_of_neg _ (by simp [h]), if_pos h]
      exact ih { s with current_surface := (s.current_surface + 1) % s.surface_count }
    · rw [List.find?_cons_of_pos _ (by simp [h]), if_neg h]

/-- Every candidate the scan visits is below surface_count, provided
the starting cursor is. -/
theorem candList_mem_lt (k : Nat) :
    ∀ cur n, cur < n → ∀ c ∈ candList k cur n, c < n := by
  induction k with
  | zero => intro cur n _ c hc; simp [candList] at hc
  | succ m ih =>
    intro cur n hcur c hc
    simp only [candList, List.mem_cons] at hc
    cases hc with
    | inl h => omega
    | inr h =>
      exact ih ((cur + 1) % n) n (Nat.mod_lt _ (by omega)) c h

/-- C4: with at least one surface configured, get_next_surface returns
the first scanned candidate absent from the live DPB and leaves the DPB
unchanged, and only when every scanned candidate is held by the DPB
does it instead remove the DPB's first entry (vector index 0, insertion
order) and return that entry's surface index; in particular it never
returns an index present in the live DPB unless every surface is
referenced. -/
theorem c4_get_next_surface_first_free (s : DxvaState) (h : 0 < s.surface_count) :
    C4Prop s := by
  obtain ⟨cend, hs2⟩ := scanLoop_state s.surface_count s
  have hfst := scanLoop_fst s.surface_count s
  rcases hp : scanLoop s.surface_count s with ⟨o, s2⟩
  rw [hp] at hfst hs2
  simp only at hfst hs2
  constructor
  · intro c hfind
    rw [hfind] at hfst
    subst hfst
    refine ⟨s2, ?_, ?_, ?_⟩
    · unfold get_next_surface
      rw [hp]
    · rw [hs2]
    · have := List.find?_some hfind
      simpa using this
  · intro hfind
    rw [hfind] at hfst
    subst hfst
    have hmem : s.current_surface ∈ candList s.surface_count s.current_surface s.surface_count := by
      cases hn : s.surface_count with
      | zero => omega
      | succ m => simp [candList]
    have hcur : inDpb s.dpb s.current_surface = true := by
      have := List.find?_eq_none.mp hfind _ hmem
      simpa using this
    cases hdpb : s.dpb with
    | nil => rw [hdpb] at hcur; simp [inDpb] at hcur
    | cons e rest =>
      refine ⟨e, rest, rfl, { s2 with dpb := rest }, ?_, rfl⟩
      unfold get_next_surface
      rw [hp, hs2]
      simp [hdpb]

/-- Witness for C4 at a concrete state: two surfaces, surface 0 held by
the DPB, cursor at 0; the call must skip to surface 1. -/
theorem c4_witness :
    0 < ({ dpb := [{ surface_index := 0, poc := 0, is_reference := true,
                     is_long_term := false, frame_num := 1 }]
           dpb_max_size := 18
           current_surface := 0
           surface_count := 2
           frame_count := 1
           prev_poc_lsb := 0
           prev_poc_msb := 0 } : DxvaState).surface_count ∧
    C4Prop
      { dpb := [{ surface_index := 0, poc := 0, is_reference := true,
                  is_long_term := false, frame_num := 1 }]
        dpb_max_size := 18
        current_surface := 0
        surface_count := 2
        frame_count := 1
        prev_poc_lsb := 0
        prev_poc_msb := 0 } :=
  ⟨by decide, c4_get_next_surface_first_free _ (by decide)⟩

/-- C6 counterexample: on the state with surface_count = 0 and an empty
DPB, get_next_surface reaches the last-resort cursor update, whose
remainder by surface_count = 0 panics in Rust; the model returns none,
refuting the claim that the function never fails for every configured
surface_count. -/
theorem c6_counterexample : get_next_surface c6CounterState = none := by rfl

/-- C6 amended: on every state whose surface_count is positive, whose
cursor is below surface_count, and whose DPB entries all carry surface
indices below surface_count (the invariants the decoder maintains),
get_next_surface cannot fail and returns an index below
surface_count. -/
theorem c6_get_next_surface_total (s : DxvaState) (h0 : 0 < s.surface_count)
    (hcur : s.current_surface < s.surface_count)
    (hdpb : ∀ e ∈ s.dpb, e.surface_index < s.surface_count) :
    ∃ c s', get_next_surface s = some (c, s') ∧ c < s.surface_count := by
  obtain ⟨cend, hs2⟩ := scanLoop_state s.surface_count s
  have hfst := scanLoop_fst s.surface_count s
  rcases hp : scanLoop s.surface_count s with ⟨o, s2⟩
  rw [hp] at hfst hs2
  simp only at hfst hs2
  cases hfind : (candList s.surface_count s.current_surface s.surface_count).find?
      (fun x => ! inDpb s.dpb x) with
  | some c =>
    rw [hfind] at hfst
    subst hfst
    refine ⟨c, s2, ?_, ?_⟩
    · unfold get_next_surface
      rw [hp]
    · exact candList_mem_lt s.surface_count s.current_surface s.surface_count hcur c
        (List.mem_of_find?_eq_some hfind)
  | none =>
    rw [hfind] at hfst
    subst hfst
    have hmem : s.current_surface ∈ candList s.surface_count s.current_surface s.surface_count := by
      cases hn : s.surface_count with
      | zero => omega
      | succ m => simp [candList]
    have hcurin : inDpb s.dpb s.current_surface = true := by
      have := List.find?_eq_none.mp hfind _ hmem
      simpa using this
    cases hdpbe : s.dpb with
    | nil => rw [hdpbe] at hcurin; simp [inDpb] at hcurin
    | cons e rest =>
      refine ⟨e.surface_index, { s2 with dpb := rest }, ?_, ?_⟩
      · unfold get_next_surface
        rw [hp, hs2]
        simp [hdpbe]
      · exact hdpb e (by rw [hdpbe]; exact List.mem_cons_self e rest)

/-- Witness for the amended C6 at a concrete in-invariant state: three
surfaces, cursor 1, DPB holding surfaces 1 and 2; the call returns an
index below 3. -/
theorem c6_witness :
    (0 < ({ dpb := [{ surface_index := 1, poc := 0, is_reference := true,
                      is_long_term := false, frame_num := 1 },
                    { surface_index := 2, poc := 4, is_reference := true,
                      is_long_term := false, frame_num := 2 }]
            dpb_max_size := 18
            current_surface := 1
            surface_count := 3
            frame_count := 2
            prev_poc_lsb := 4
            prev_poc_msb := 0 } : DxvaState).surface_count) ∧
    (∃ c s', get_next_surface
      { dpb := [{ surface_index := 1, poc := 0, is_reference := true,
                  is_long_term := false, frame_num := 1 },
                { surface_index := 2, poc := 4, is_reference := true,
                  is_long_term := false, frame_num := 2 }]
        dpb_max_size := 18
        current_surface := 1
        surface_count := 3
        frame_count := 2
        prev_poc_lsb := 4
        prev_poc_msb := 0 } = some (c, s') ∧ c < 3) :=
  ⟨by decide,
    c6_get_next_surface_total _ (by decide) (by decide) (by decide)⟩

/-- A successful get_next_surface call keeps the frame counter and
either leaves the DPB unchanged or removes exactly its first entry. -/
theorem get_next_surface_dpb (s : DxvaState) (c : Nat) (s' : DxvaState)
    (h : get_next_surface s = some (c, s')) :
    s'.frame_count = s.frame_count ∧
      (s'.dpb = s.dpb ∨ ∃ e, s.dpb = e :: s'.dpb) := by
  obtain ⟨cend, hs2⟩ := scanLoop_state s.surface_count s
  rcases hp : scanLoop s.surface_count s with ⟨o, s2⟩
  rw [hp] at hs2
  simp only at hs2
  have hsdpb : s2.dpb = s.dpb := by rw [hs2]
  have hsfc : s2.frame_count = s.frame_count := by rw [hs2]
  cases o with
  | some a =>
    have hval : get_next_surface s = some (a, s2) := by
      unfold get_next_surface
      rw [hp]
    rw [hval] at h
    simp only [Option.some.injEq, Prod.mk.injEq] at h
    rw [← h.2]
    exact ⟨hsfc, Or.inl hsdpb⟩
  | none =>
    cases hdpb : s2.dpb with
    | nil =>
      by_cases hz : s2.surface_count = 0
      · have hval : get_next_surface s = none := by
          unfold get_next_surface
          rw [hp]
          simp [hdpb, hz]
        rw [hval] at h
        exact absurd h (by simp)
      · have hval : get_next_surface s = some (s2.current_surface,
            { s2 with current_surface := (s2.current_surface + 1) % s2.surface_count }) := by
          unfold get_next_surface
          rw [hp]
          simp [hdpb, hz]
        rw [hval] at h
        simp only [Option.some.injEq, Prod.mk.injEq] at h
        rw [← h.2]
        refine ⟨hsfc, Or.inl ?_⟩
        exact hsdpb
    | cons e rest =>
      have hval : get_next_surface s = some (e.surface_index, { s2 with dpb := rest }) := by
        unfold get_next_surface
        rw [hp]
        simp [hdpb]
      rw [hval] at h
      simp only [Option.some.injEq, Prod.mk.injEq] at h
      rw [← h.2]
      refine ⟨hsfc, Or.inr ⟨e, ?_⟩⟩
      rw [← hsdpb, hdpb]

/-- C9: surface_index uniqueness in the DPB is preserved by every
operation: update_dpb drops any entry that reuses the new surface
before appending, and get_next_surface and clear_dpb only remove
entries. -/
theorem c9_surface_index_unique (s : DxvaState) (surface_idx : Nat) (poc : Int)
    ( is_reference is_idr : Bool)
    (h : (s.dpb.map (fun e => e.surface_index)).Nodup) :
    ((update_dpb s surface_idx poc is_reference is_idr).dpb.map
        (fun e => e.surface_index)).Nodup ∧
    (∀ c s', get_next_surface s = some (c, s') →
      (s'.dpb.map (fun e => e.surface_index)).Nodup) ∧
    ((clear_dpb s).dpb.map (fun e => e.surface_index)).Nodup := by
  refine ⟨?_, ?_, by simp [clear_dpb]⟩
  · unfold update_dpb
    have hbase : ∀ l : List DpbEntry, (l.map (fun e => e.surface_index)).Nodup →
        (((if is_reference then
            evictLoop
              ((List.filter (fun e => e.surface_index != surface_idx % 256) l).length)
              (List.filter (fun e => e.surface_index != surface_idx % 256) l)
              s.dpb_max_size ++
              [({ surface_index := surface_idx % 256, poc := poc, is_reference := true,
                  is_long_term := false, frame_num := s.frame_count + 1 } : DpbEntry)]
          else
            evictLoop
              ((List.filter (fun e => e.surface_index != surface_idx % 256) l).length)
              (List.filter (fun e => e.surface_index != surface_idx % 256) l)
              s.dpb_max_size)).map (fun e => e.surface_index)).Nodup := by
      intro l hl
      have hfsub : List.Sublist
          (List.filter (fun e => e.surface_index != surface_idx % 256) l) l :=
        List.filter_sublist l
      have hesub : List.Sublist
          (evictLoop ((List.filter (fun e => e.surface_index != surface_idx % 256) l).length)
            (List.filter (fun e => e.surface_index != surface_idx % 256) l) s.dpb_max_size)
          (List.filter (fun e => e.surface_index != surface_idx % 256) l) :=
        evictLoop_sublist _ _ _
      have hsub := List.Sublist.trans hesub hfsub
      have hnodup : ((evictLoop
          ((List.filter (fun e => e.surface_index != surface_idx % 256) l).length)
          (List.filter (fun e => e.surface_index != surface_idx % 256) l)
          s.dpb_max_size).map (fun e => e.surface_index)).Nodup :=
        hl.sublist (List.Sublist.map _ hsub)
      cases is_reference with
      | false => simpa using hnodup
      | true =>
        simp only [if_true, List.map_append, List.map_cons, List.map_nil]
        rw [List.nodup_append]
        refine ⟨hnodup, List.nodup_singleton _, ?_⟩
        intro a ha hb
        simp only [List.mem_singleton] at hb
        simp only [List.mem_map] at ha
        obtain ⟨e, he, hae⟩ := ha
        have hmemf := hesub.subset he
        have hne := List.of_mem_filter hmemf
        simp only [bne_iff_ne, ne_eq] at hne
        exact hne (by rw [hae, hb])
    cases is_idr with
    | true =>
      simpa using hbase [] (by simp)
    | false =>
      simpa using hbase s.dpb h
  · intro c s' hcall
    rcases (get_next_surface_dpb s c s' hcall).2 with heq | ⟨e, heq⟩
    · rw [heq]; exact h
    · rw [heq] at h
      simp only [List.map_cons, List.nodup_cons] at h
      exact h.2

/-- Witness for C9 at a concrete state with distinct surface indices:
an update reusing surface 1 keeps the map of surface indices
duplicate-free. -/
theorem c9_witness :
    ((({ dpb := [{ surface_index := 1, poc := 0, is_reference := true,
                   is_long_term := false, frame_num := 1 },
                 { surface_index := 2, poc := 4, is_reference := true,
                   is_long_term := false, frame_num := 2 }]
         dpb_max_size := 18
         current_surface := 3
         surface_count := 25
         frame_count := 2
         prev_poc_lsb := 4
         prev_poc_msb := 0 } : DxvaState).dpb.map (fun e => e.surface_index)).Nodup) ∧
    ((update_dpb
      { dpb := [{ surface_index := 1, poc := 0, is_reference := true,
                  is_long_term := false, frame_num := 1 },
                { surface_index := 2, poc := 4, is_reference := true,
                  is_long_term := false, frame_num := 2 }]
        dpb_max_size := 18
        current_surface := 3
        surface_count := 25
        frame_count := 2
        prev_poc_lsb := 4
        prev_poc_msb := 0 } 1 8 true false).dpb.map (fun e => e.surface_index)).Nodup :=
  ⟨by decide,
    (c9_surface_index_unique _ 1 8 true false (by decide)).1⟩

/-- The min scan never moves off the running best index when no later
element is strictly smaller. -/
theorem minFrameNumGo_of_not_lt (l : List DpbEntry) :
    ∀ best bestIdx cur, (∀ x ∈ l, ¬ x.frame_num < best) →
      minFrameNumGo l best bestIdx cur = bestIdx := by
  induction l with
  | nil => intro best bestIdx cur _; rfl
  | cons e rest ih =>
    intro best bestIdx cur hall
    have he : ¬ e.frame_num < best := hall e (List.mem_cons_self e rest)
    simp only [minFrameNumGo, he, if_false]
    exact ih best bestIdx (cur + 1) (fun x hx => hall x (List.mem_cons_of_mem e hx))

/-- One update_dpb call preserves the frame_num ordering invariant. -/
theorem dpbOrdered_update (s : DxvaState) (a : Nat) (p : Int) (r i : Bool)
    (h : DpbOrdered s) : DpbOrdered (update_dpb s a p r i) := by
  obtain ⟨hpw, hbd⟩ := h
  have key : ∀ l : List DpbEntry,
      l.Pairwise (fun x y => x.frame_num < y.frame_num) →
      (∀ e ∈ l, e.frame_num ≤ s.frame_count) →
      ((if r then
          evictLoop ((List.filter (fun e => e.surface_index != a % 256) l).length)
            (List.filter (fun e => e.surface_index != a % 256) l) s.dpb_max_size ++
            [({ surface_index := a % 256, poc := p, is_reference := true,
                is_long_term := false, frame_num := s.frame_count + 1 } : DpbEntry)]
        else
          evictLoop ((List.filter (fun e => e.surface_index != a % 256) l).length)
            (List.filter (fun e => e.surface_index != a % 256) l)
            s.dpb_max_size).Pairwise (fun x y => x.frame_num < y.frame_num)) ∧
      (∀ e, e ∈ (if r then
          evictLoop ((List.filter (fun e => e.surface_index != a % 256) l).length)
            (List.filter (fun e => e.surface_index != a % 256) l) s.dpb_max_size ++
            [({ surface_index := a % 256, poc := p, is_reference := true,
                is_long_term := false, frame_num := s.frame_count + 1 } : DpbEntry)]
        else
          evictLoop ((List.filter (fun e => e.surface_index != a % 256) l).length)
            (List.filter (fun e => e.surface_index != a % 256) l) s.dpb_max_size) →
        e.frame_num ≤ s.frame_count + 1) := by
    intro l hlpw hlbd
    have hsub : List.Sublist
        (evictLoop ((List.filter (fun e => e.surface_index != a % 256) l).length)
          (List.filter (fun e => e.surface_index != a % 256) l) s.dpb_max_size) l :=
      List.Sublist.trans (evictLoop_sublist _ _ _) (List.filter_sublist l)
    have hpwe := hlpw.sublist hsub
    have hbde : ∀ e ∈ evictLoop
        ((List.filter (fun e => e.surface_index != a % 256) l).length)
        (List.filter (fun e => e.surface_index != a % 256) l) s.dpb_max_size,
        e.frame_num ≤ s.frame_count :=
      fun e he => hlbd e (hsub.subset he)
    cases r with
    | false =>
      refine ⟨by simpa using hpwe, ?_⟩
      intro e he
      simp only [Bool.false_eq_true, if_false] at he
      exact Nat.le_succ_of_le (hbde e he)
    | true =>
      constructor
      · simp only [if_true]
        rw [List.pairwise_append]
        refine ⟨hpwe, List.pairwise_singleton _ _, ?_⟩
        intro x hx y hy
        simp only [List.mem_singleton] at hy
        subst hy
        have := hbde x hx
        show x.frame_num < s.frame_count + 1
        omega
      · intro e he
        simp only [if_true, List.mem_append, List.mem_singleton] at he
        cases he with
        | inl hm => exact Nat.le_succ_of_le (hbde e hm)
        | inr hn => rw [hn]
  unfold update_dpb DpbOrdered
  cases i with
  | true =>
    have hk := key [] List.Pairwise.nil (by simp)
    simpa using hk
  | false =>
    have hk := key s.dpb hpw hbd
    simpa using hk

/-- Every decoder operation preserves the frame_num ordering
invariant. -/
theorem dpbOrdered_step (s : DxvaState) (op : Op) (h : DpbOrdered s) :
    DpbOrdered (step s op) := by
  cases op with
  | update a p r i => exact dpbOrdered_update s a p r i h
  | acquire =>
    simp only [step]
    cases hg : get_next_surface s with
    | none => exact h
    | some pr =>
      obtain ⟨c, s'⟩ := pr
      obtain ⟨hfc, hdpb⟩ := get_next_surface_dpb s c s' hg
      obtain ⟨hpw, hbd⟩ := h
      cases hdpb with
      | inl heq =>
        exact ⟨by rw [heq]; exact hpw, fun e he => by
          rw [hfc]; exact hbd e (by rw [← heq]; exact he)⟩
      | inr hex =>
        obtain ⟨e0, he0⟩ := hex
        rw [he0] at hpw hbd
        exact ⟨(List.pairwise_cons.mp hpw).2,
          fun e he => by
            rw [hfc]
            exact hbd e (List.mem_cons_of_mem e0 he)⟩
  | clear =>
    constructor <;> simp [step, clear_dpb]

/-- Reachable states satisfy the frame_num ordering invariant. -/
theorem reachable_dpbOrdered (s : DxvaState) (h : Reachable s) : DpbOrdered s := by
  induction h with
  | fresh n => exact ⟨by simp [freshState], by simp [freshState]⟩
  | step s op _ ih => exact dpbOrdered_step s op ih

/-- C10: in every state reachable from a fresh decoder by update_dpb,
get_next_surface and clear_dpb calls, the frame_num fields of the DPB
are strictly increasing in vector order (hence pairwise distinct), so
on a non-empty DPB the smallest-frame_num entry is exactly the first
entry: the normal eviction rule and the exhaustion fallback select the
same entry. -/
theorem c10_frame_num_insertion_order (s : DxvaState) (h : Reachable s) :
    s.dpb.Pairwise (fun a b => a.frame_num < b.frame_num) ∧
    (s.dpb ≠ [] → idxOfMinFrameNum s.dpb = some 0) := by
  have hinv := reachable_dpbOrdered s h
  refine ⟨hinv.1, ?_⟩
  intro hne
  cases hdpb : s.dpb with
  | nil => exact absurd hdpb hne
  | cons e rest =>
    have hpw := hinv.1
    rw [hdpb] at hpw
    have hlt := (List.pairwise_cons.mp hpw).1
    simp only [idxOfMinFrameNum, Option.some.injEq]
    exact minFrameNumGo_of_not_lt rest e.frame_num 0 1
      (fun x hx => by have := hlt x hx; omega)

/-- Witness for C10 at a concrete reachable state: two reference
updates from a fresh decoder leave a DPB ordered by frame_num whose
minimum sits at index 0. -/
theorem c10_witness :
    (step (step (freshState 25) (Op.update 3 10 true false))
        (Op.update 4 20 true false)).dpb.Pairwise
      (fun a b => a.frame_num < b.frame_num) ∧
    ((step (step (freshState 25) (Op.update 3 10 true false))
        (Op.update 4 20 true false)).dpb ≠ [] →
      idxOfMinFrameNum
        (step (step (freshState 25) (Op.update 3 10 true false))
          (Op.update 4 20 true false)).dpb = some 0) :=
  c10_frame_num_insertion_order _
    (Reachable.step _ _ (Reachable.step _ _ (Reachable.fresh 25)))

/-- The build loop grows the bitstream by exactly the summed slice
sizes, sums slice_bytes_in_buffer to the same amount, and emits one
control per NAL. -/
theorem buildLoop_spec (start_code_len : Nat) (use_start_codes : Bool)
    (hscl : (if use_start_codes then [0, 0, 1] else ([] : List Nat)).length = start_code_len) :
    ∀ (nals : List (List Nat)) (bs : List Nat) (ctrls : List DxvaHevcSliceShort),
      (buildLoop start_code_len use_start_codes nals bs ctrls).1.length =
        bs.length + (nals.map (fun nal => start_code_len + nal.length)).sum ∧
      ((buildLoop start_code_len use_start_codes nals bs ctrls).2.map
          (fun c => c.slice_bytes_in_buffer)).sum =
        (ctrls.map (fun c => c.slice_bytes_in_buffer)).sum +
          (nals.map (fun nal => start_code_len + nal.length)).sum ∧
      (buildLoop start_code_len use_start_codes nals bs ctrls).2.length =
        ctrls.length + nals.length := by
  intro nals
  induction nals with
  | nil => intro bs ctrls; simp [buildLoop]
  | cons nal rest ih =>
    intro bs ctrls
    simp only [buildLoop]
    obtain ⟨h1, h2, h3⟩ := ih
      (bs ++ (if use_start_codes then [0, 0, 1] else []) ++ nal)
      (ctrls ++
        [{ bs_nal_unit_data_location := bs.length
           slice_bytes_in_buffer := start_code_len + nal.length
           w_bad_slice_chopping := 0 }])
    refine ⟨?_, ?_, ?_⟩
    · rw [h1]
      simp only [List.length_append, List.map_cons, List.sum_cons, hscl]
      omega
    · rw [h2]
      simp only [List.map_append, List.map_cons, List.map_nil, List.sum_append,
        List.sum_cons, List.sum_nil, List.map_cons, List.sum_cons]
      omega
    · rw [h3]
      simp only [List.length_append, List.length_cons, List.length_nil, List.length_cons]
      omega

/-- Folding padding into the last slice adds exactly the padding to the
summed byte counts of a non-empty control list. -/
theorem addPadToLast_sum (p : Nat) :
    ∀ ctrls : List DxvaHevcSliceShort, ctrls ≠ [] →
      ((addPadToLast ctrls p).map (fun c => c.slice_bytes_in_buffer)).sum =
        (ctrls.map (fun c => c.slice_bytes_in_buffer)).sum + p := by
  intro ctrls
  induction ctrls with
  | nil => intro h; exact absurd rfl h
  | cons c rest ih =>
    intro _
    cases rest with
    | nil => simp [addPadToLast]
    | cons c2 rest2 =>
      have hr := ih (by simp)
      simp only [addPadToLast, List.map_cons, List.sum_cons] at hr ⊢
      omega

/-- C8: for every slice-NAL list and ConfigBitstreamRaw value, the
produced bitstream length is the smallest multiple of 128 at least the
total payload (each slice counting its NAL bytes plus a 3-byte start
code exactly when ConfigBitstreamRaw = 1), and the slice controls'
slice_bytes_in_buffer values sum to that padded length, the padding
being folded into the final slice. -/
theorem c8_bitstream_padding (slice_nals : List (List Nat)) (config_bitstream_raw : Nat) :
    (build_annex_b_bitstream_and_slices slice_nals config_bitstream_raw).1.length % 128 = 0 ∧
    (slice_nals.map (fun nal =>
        (if config_bitstream_raw == 1 then 3 else 0) + nal.length)).sum ≤
      (build_annex_b_bitstream_and_slices slice_nals config_bitstream_raw).1.length ∧
    (build_annex_b_bitstream_and_slices slice_nals config_bitstream_raw).1.length <
      (slice_nals.map (fun nal =>
        (if config_bitstream_raw == 1 then 3 else 0) + nal.length)).sum + 128 ∧
    (((build_annex_b_bitstream_and_slices slice_nals config_bitstream_raw).2.map
        (fun c => c.slice_bytes_in_buffer)).sum =
      (build_annex_b_bitstream_and_slices slice_nals config_bitstream_raw).1.length) := by
  have hscl : (if (config_bitstream_raw == 1) then [0, 0, 1] else ([] : List Nat)).length =
      (if (config_bitstream_raw == 1) then 3 else 0) := by
    by_cases h : config_bitstream_raw == 1 <;> simp [h]
  obtain ⟨hlen, hsum, hcount⟩ := buildLoop_spec _ _ hscl slice_nals [] []
  simp only [List.length_nil, Nat.zero_add, List.map_nil, List.sum_nil,
    List.length_nil] at hlen hsum hcount
  simp only [build_annex_b_bitstream_and_slices]
  set scl := (if (config_bitstream_raw == 1) then 3 else 0) with hsclDef
  set t := (slice_nals.map (fun nal => scl + nal.length)).sum with ht
  refine ⟨?_, ?_, ?_, ?_⟩
  · simp only [List.length_append, List.length_replicate, hlen]
    omega
  · simp only [List.length_append, List.length_replicate, hlen]
    omega
  · simp only [List.length_append, List.length_replicate, hlen]
    omega
  · simp only [List.length_append, List.length_replicate, hlen]
    by_cases hnil : slice_nals = []
    · subst hnil
      have ht0 : t = 0 := by rw [ht]; simp
      rw [ht0]
      simp [buildLoop, addPadToLast]
    · have hne : (buildLoop scl (config_bitstream_raw == 1) slice_nals [] []).2 ≠ [] := by
        intro hcontra
        rw [hcontra] at hcount
        simp only [List.length_nil] at hcount
        exact hnil (List.eq_nil_of_length_eq_zero hcount.symm)
      rw [addPadToLast_sum _ _ hne, hsum]

/-- C2, evaluated on the code: with a long-term reference in the DPB
(POC 10, surface 1) and current POC 25, build_hevc_pic_params appends
the long-term entry at reference-list index 0 (packed byte 0x81) but
leaves ref_pic_set_lt_curr entirely 0xFF, so the long-term position is
never recorded — contradicting both the claim and the source's own
comment at the recording site.  On the short-term example DPB with POCs
{10, 20, 30} and current POC 25, the claimed ordering does hold:
POC list prefix [20, 10, 30], before-set positions [0, 1], after-set
position [2]; and IDR frames or an empty DPB leave every list entry at
the sentinel and all three sets at 0xFF. -/
theorem c2_lt_curr_never_recorded :
    (buildRefLists c2FailDpb 25 false).ref_pic_list.head? = some (picEntryNew 1 true) ∧
    picEntryNew 1 true = 0x81 ∧
    (buildRefLists c2FailDpb 25 false).ref_pic_set_lt_curr =
      List.replicate 8 (0xFF : Nat) ∧
    (buildRefLists c2ExampleDpb 25 false).pic_order_cnt_val_list.take 3 =
      [20, 10, 30] ∧
    (buildRefLists c2ExampleDpb 25 false).ref_pic_set_st_curr_before =
      [0, 1, 0xFF, 0xFF, 0xFF, 0xFF, 0xFF, 0xFF] ∧
    (buildRefLists c2ExampleDpb 25 false).ref_pic_set_st_curr_after =
      [2, 0xFF, 0xFF, 0xFF, 0xFF, 0xFF, 0xFF, 0xFF] ∧
    (buildRefLists c2ExampleDpb 25 true).ref_pic_list =
      List.replicate 15 (0xFF : Nat) ∧
    (buildRefLists c2ExampleDpb 25 true).ref_pic_set_st_curr_before =
      List.replicate 8 (0xFF : Nat) ∧
    (buildRefLists [] 25 false).ref_pic_list = List.replicate 15 (0xFF : Nat) := by
  decide

/-- Lists all of whose elements satisfy the predicate pass takeWhile
through unchanged and keep scanning the suffix. -/
theorem takeWhile_append_of_all {α : Type} (p : α → Bool) :
    ∀ (l₁ l₂ : List α), (∀ a ∈ l₁, p a = true) →
      (l₁ ++ l₂).takeWhile p = l₁ ++ l₂.takeWhile p := by
  intro l₁
  induction l₁ with
  | nil => intro l₂ _; simp
  | cons a rest ih =>
    intro l₂ h
    have ha : p a = true := h a (List.mem_cons_self a rest)
    simp only [List.cons_append, List.takeWhile_cons, ha, if_true]
    rw [ih l₂ (fun x hx => h x (List.mem_cons_of_mem a hx))]

/-- A list with some failing element stops takeWhile before the
appended suffix. -/
theorem takeWhile_append_of_not_all {α : Type} (p : α → Bool) :
    ∀ (l₁ l₂ : List α), l₁.all p = false →
      (l₁ ++ l₂).takeWhile p = l₁.takeWhile p := by
  intro l₁
  induction l₁ with
  | nil => intro l₂ h; simp at h
  | cons a rest ih =>
    intro l₂ h
    simp only [List.all_cons, Bool.and_eq_false_iff] at h
    by_cases ha : p a = true
    · have hrest : rest.all p = false := by
        cases h with
        | inl hh => rw [ha] at hh; exact absurd hh (by simp)
        | inr hh => exact hh
      simp only [List.cons_append, List.takeWhile_cons, ha, if_true]
      rw [ih l₂ hrest]
    · have ha' : p a = false := Bool.eq_false_iff.mpr ha
      simp only [List.cons_append, List.takeWhile_cons, ha', Bool.false_eq_true, if_false]

/-- The consecutive-failure counter after any history equals the length
of the history's trailing run of failures (starting from counter c, an
all-failure history instead yields c plus its length). -/
theorem counterRun_eq_aux :
    ∀ (l : List Bool) (c : Nat),
      counterRun c l =
        if l.all (fun b => !b) then c + l.length
        else (l.reverse.takeWhile (fun b => !b)).length := by
  intro l
  induction l with
  | nil => intro c; simp [counterRun]
  | cons b rest ih =>
    intro c
    cases b with
    | false =>
      simp only [counterRun, Bool.false_eq_true, if_false]
      rw [ih (c + 1)]
      simp only [List.all_cons, Bool.not_false, Bool.true_and, List.length_cons,
        List.reverse_cons]
      by_cases hall : rest.all (fun b => !b)
      · simp only [hall, if_true]
        omega
      · have hall' : rest.all (fun b => !b) = false := Bool.eq_false_iff.mpr hall
        simp only [hall', Bool.false_eq_true, if_false]
        rw [takeWhile_append_of_not_all _ _ _ (by rw [List.all_reverse]; exact hall')]
    | true =>
      simp only [counterRun, if_true]
      rw [ih 0]
      simp only [List.all_cons, Bool.not_true, Bool.false_and, Bool.false_eq_true,
        if_false, List.reverse_cons]
      by_cases hall : rest.all (fun b => !b)
      · simp only [hall, if_true]
        rw [takeWhile_append_of_all _ _ _
          (fun a ha => by
            rw [List.mem_reverse] at ha
            exact List.all_eq_true.mp hall a ha)]
        simp
      · have hall' : rest.all (fun b => !b) = false := Bool.eq_false_iff.mpr hall
        simp only [hall', Bool.false_eq_true, if_false]
        rw [takeWhile_append_of_not_all _ _ _ (by rw [List.all_reverse]; exact hall')]

/-- C5 counterexample: four consecutive native-path decode failures
report needs_keyframe = [false, false, true, true] — the report is
asserted again on the 4th failure, immediately past the threshold,
whereas the claimed schedule (once at the crossing, re-asserted only
every 20 during prolonged failure) predicts [false, false, true,
false]. -/
theorem c5_counterexample :
    runFlags nativeStep 0 (List.replicate 4 false) = [false, false, true, true] ∧
    claimedFlags 4 = [false, false, true, false] ∧
    runFlags nativeStep 0 (List.replicate 4 false) ≠ claimedFlags 4 := by
  decide

/-- C5 amended: a successful decode resets the consecutive-failure
counter in both paths, and the counter always equals the length of the
trailing failure run of the history; the GStreamer no-frame path
reports needs_keyframe on the claimed schedule (exactly at the
threshold crossing, re-asserted at multiples of 20 during prolonged
failure: counts 3, 20, 40 over 45 failures), while the GStreamer error
path and the native decoder path report needs_keyframe on every failure
at or past the threshold. -/
theorem c5_needs_keyframe_schedule :
    (∀ c : Nat, nativeStep c true = (0, false) ∧
      decodeAsyncStep c GstOutcome.frame = (0, false)) ∧
    (∀ l : List Bool, counterRun 0 l = (l.reverse.takeWhile (fun b => !b)).length) ∧
    runFlags decodeAsyncStep 0 (List.replicate 45 GstOutcome.noFrame) =
      claimedFlags 45 ∧
    runFlags nativeStep 0 (List.replicate 10 false) =
      (List.range 10).map (fun i => decide (3 ≤ i + 1)) ∧
    runFlags decodeAsyncStep 0 (List.replicate 10 GstOutcome.error) =
      (List.range 10).map (fun i => decide (3 ≤ i + 1)) := by
  refine ⟨fun c => ⟨rfl, rfl⟩, ?_, by decide, by decide, by decide⟩
  intro l
  rw [counterRun_eq_aux l 0]
  by_cases hall : l.all (fun b => !b)
  · simp only [hall, if_true, Nat.zero_add]
    rw [← List.length_reverse l]
    have : l.reverse.takeWhile (fun b => !b) = l.reverse := by
      have := takeWhile_append_of_all (fun b => !b) l.reverse []
        (fun a ha => by
          rw [List.mem_reverse] at ha
          exact List.all_eq_true.mp hall a ha)
      simpa using this
    rw [this]
  · have hall' : l.all (fun b => !b) = false := Bool.eq_false_iff.mpr hall
    simp only [hall', Bool.false_eq_true, if_false]

end OpenNOW
